import Mathlib

/-
  Verification development for the modelknight policy-evaluation gateway.

  Shallow embedding of the core (src/policy.rs, src/compile.rs, src/store.rs,
  src/pii_regex.rs, src/semantic.rs, src/api.rs) in Lean 4.

  Modelling conventions, used throughout:
  * Texts are modelled as `Str := List Char`.  Rust strings are UTF-8 byte
    arrays with byte offsets; the model treats the text as the sequence of its
    characters and spans as index ranges into that sequence.  On ASCII text
    (all concrete inputs used below) characters and bytes coincide, and the
    splice structure of `String::replace_range` is identical either way.
    `byteLen` computes the honest UTF-8 byte length where the code asks for
    `text.as_bytes().len()`.
  * The external `regex` crate is modelled as an abstract compiler parameter
    `RegexComp : String -> Option (Str -> Bool)` (compilation may fail;
    a compiled regex is its boolean substring-match predicate).  The regex
    engine itself is out of the repository; none of the claims below depends
    on the shape of a particular regular expression: the PII detector is
    parameterised by the candidate spans the regexes would produce.
  * The external `aho_corasick` crate (version 1.x, as implied by the
    fallible `AhoCorasick::new(values)?` call): building an automaton
    succeeds for every pattern list, including the empty one, which yields
    an automaton that never matches; `is_match` is true iff some pattern
    occurs as a substring.  Modelled by `acIsMatch`.
  * `f32` arithmetic in src/semantic.rs is modelled by exact real
    arithmetic.  Dense vectors are kept unnormalised (`sparse_to_dense`
    L2-rescales its output, and `cosine_similarity` divides by the norms
    again; cosine similarity is invariant under positive rescaling, and the
    zero-vector guards agree, so dropping the intermediate rescaling
    preserves every score); unnormalised they are bucket-count vectors,
    i.e. lists of naturals.  The square roots inside `cosine_similarity`
    are irrational, so the two comparisons the program makes on scores
    (`score > best_score`, `score >= threshold`) are embedded as the
    equivalent square-free integer cross-multiplication tests `scoreGtB` /
    `scoreGeB`; `scoreGeB_correct` and `scoreGtB_correct` prove them
    equivalent to the real-valued comparisons against
    `dot / (sqrt (normSq a) * sqrt (normSq b))`.
-/

deriving instance DecidableEq for Except

namespace MK

set_option maxRecDepth 200000

abbrev Str := List Char

/-- UTF-8 byte length of a text (`text.as_bytes().len()` in the source). -/
def byteLen (s : Str) : Nat := (s.map Char.utf8Size).sum

/-! ## Policy data model (src/policy.rs) -/

inductive AppliesTo
  | prompt
  | response
  | both
deriving DecidableEq

inductive Action
  | allow
  | block
deriving DecidableEq

inductive Kind
  | prompt
  | response
deriving DecidableEq

inductive Field
  | text
  | tenant
  | model
deriving DecidableEq

inductive MatchExpr
  | exact (field : Field) (value : Str)
  | regex (field : Field) (pattern : String)
  | keywords (field : Field) (values : List Str)
deriving DecidableEq

structure When where
  any : List MatchExpr
deriving DecidableEq

structure Rule where
  id : String
  description : Option String
  appliesTo : AppliesTo
  action : Action
  priority : Nat
  «when» : When
deriving DecidableEq

inductive PiiMode
  | redact
  | off
deriving DecidableEq

structure PiiDetectors where
  email : Bool
  ip : Bool
  creditCard : Bool
  phone : Bool
deriving DecidableEq

/-- `PiiDetectors::default()`: all detectors off. -/
def PiiDetectors.default : PiiDetectors :=
  { email := false, ip := false, creditCard := false, phone := false }

structure PiiConfig where
  enabled : Bool
  appliesTo : AppliesTo
  mode : PiiMode
  redactionToken : Str
  detectors : PiiDetectors
  maxBytes : Nat
  includeFindings : Bool
deriving DecidableEq

/-- `PiiConfig::default()` from src/policy.rs. -/
def PiiConfig.default : PiiConfig :=
  { enabled := true
    appliesTo := .both
    mode := .redact
    redactionToken := "REDACTED".data
    detectors := PiiDetectors.default
    maxBytes := 32 * 1024
    includeFindings := false }

structure SemanticExample where
  text : Str
  embedding : Option (List ℚ)
deriving DecidableEq

structure SemanticCase where
  id : String
  description : Option String
  examples : List SemanticExample
deriving DecidableEq

structure SemanticConfig where
  enabled : Bool
  appliesTo : AppliesTo
  action : Action
  threshold : ℚ
  cases : List SemanticCase
  ngramMin : Option Nat
  ngramMax : Option Nat
deriving DecidableEq

/-- `SemanticConfig::default()` from src/policy.rs. -/
def SemanticConfig.default : SemanticConfig :=
  { enabled := false
    appliesTo := .prompt
    action := .block
    threshold := mkRat 88 100
    cases := []
    ngramMin := some 3
    ngramMax := some 5 }

structure PolicyFile where
  rules : List Rule
  pii : PiiConfig
  semantic : SemanticConfig
deriving DecidableEq

structure PiiEntity where
  entityType : String
  start : Nat
  stop : Nat          -- Rust field `end` (a Lean keyword)
  score : ℚ
  text : Str
deriving DecidableEq

structure EvalRequest where
  kind : Kind
  text : Str
  tenant : Option Str
  model : Option Str
deriving DecidableEq

/-- `EvalResponse` without `request_id` (the id is an opaque UUID chosen by
the caller or freshly generated; no claim mentions it). -/
structure EvalResponse where
  action : Action
  matchedRule : Option String
  reason : Option String
  outputText : Option Str
  pii : Option (List PiiEntity)
deriving DecidableEq

/-! ## Rule compiler (src/compile.rs) -/

/-- Abstract regex compiler: `Regex::new` either fails or yields the
substring-match predicate `Regex::is_match`. -/
abbrev RegexComp := String → Option (Str → Bool)

/-- `startsWithStr p s`: `p` is a prefix of `s`. -/
def startsWithStr : Str → Str → Bool
  | [], _ => true
  | _ :: _, [] => false
  | p :: ps, c :: cs => p == c && startsWithStr ps cs

/-- `containsSub p s`: `p` occurs as a contiguous substring of `s`. -/
def containsSub (pat : Str) : Str → Bool
  | [] => startsWithStr pat []
  | c :: cs => startsWithStr pat (c :: cs) || containsSub pat cs

/-- `AhoCorasick::is_match`: some pattern occurs in the haystack.  With an
empty pattern list the automaton never matches. -/
def acIsMatch (values : List Str) (hay : Str) : Bool :=
  values.any (fun v => containsSub v hay)

inductive CompiledMatch
  | exact (field : Field) (value : Str)
  | regex (field : Field) (re : Str → Bool) (raw : String)
  | keywords (field : Field) (values : List Str)

structure CompiledRule where
  id : String
  description : Option String
  appliesTo : AppliesTo
  action : Action
  priority : Nat
  whenAny : List CompiledMatch

/-- One match expression of `compile_rule`.  `exact` always compiles;
`regex` fails iff `Regex::new` fails; `keywords` always compiles
(`AhoCorasick::new` accepts any pattern list, the empty list included). -/
def compileMatch (rc : RegexComp) : MatchExpr → Except String CompiledMatch
  | .exact f v => .ok (.exact f v)
  | .regex f p =>
      match rc p with
      | some re => .ok (.regex f re p)
      | none => .error ("invalid regex: " ++ p)
  | .keywords f vs => .ok (.keywords f vs)

/-- `compile_rule` from src/compile.rs: compile every expression of
`when.any`; the first failure fails the rule. -/
def compileRule (rc : RegexComp) (r : Rule) : Except String CompiledRule :=
  match r.when.any.mapM (compileMatch rc) with
  | .ok ms =>
      .ok { id := r.id, description := r.description, appliesTo := r.appliesTo,
            action := r.action, priority := r.priority, whenAny := ms }
  | .error e => .error e

/-- Strict lexicographic order on character lists: the model of Rust's
bytewise `str` ordering (bytewise and codepointwise lexicographic orders
agree on UTF-8 strings). -/
def strLtB : Str → Str → Bool
  | [], [] => false
  | [], _ :: _ => true
  | _ :: _, [] => false
  | a :: as, b :: bs => if a < b then true else if b < a then false else strLtB as bs

/-- The sort key of `compile_all`: `(priority ascending, id ascending)`. -/
def ruleLe (a b : CompiledRule) : Prop :=
  a.priority < b.priority ∨ (a.priority = b.priority ∧ strLtB b.id.data a.id.data = false)

instance : DecidableRel ruleLe := fun a b => by unfold ruleLe; infer_instance

/-- `compile_all` from src/store.rs: compile every rule (all-or-nothing),
then stable-sort by `(priority, id)`.  Rust `sort_by` is a stable sort, as
is `List.insertionSort`; stable sorts with the same total preorder agree. -/
def compileAll (rc : RegexComp) (rules : List Rule) :
    Except String (List CompiledRule) :=
  (rules.mapM (compileRule rc)).map (List.insertionSort ruleLe)

/-! ## Rule store (src/store.rs) -/

/-- The semantic artifacts compiled by `compile_semantic` (declared here;
built below in the semantic section). -/
structure CompiledExample where
  text : Str
  ngramVec : List Nat
deriving DecidableEq

structure CompiledSemanticCase where
  id : String
  description : Option String
  examples : List CompiledExample
deriving DecidableEq

structure CompiledSemantic where
  enabled : Bool
  appliesTo : AppliesTo
  action : Action
  threshold : ℚ
  cases : List CompiledSemanticCase
deriving DecidableEq

/-- The store's `Inner` state: the active policy document, its compiled
artifacts and the persistent document (the contents of the file at
`policy_path`; `none` models a missing file). -/
structure StoreState where
  policy : PolicyFile
  compiled : List CompiledRule
  semanticCompiled : CompiledSemantic
  disk : Option PolicyFile

/-- `get_policy`: the active document-shaped policy. -/
def getPolicy (st : StoreState) : PolicyFile := st.policy

/-! ## Semantic matcher (src/semantic.rs)

Vectors are the 128-bucket dense accumulators, kept unnormalised (see the
header comment): `denseCounts text nmin nmax` is the bucket-count vector the
pipeline `sparse_to_dense(vectorize_char_ngrams(text, nmin, nmax))` produces,
up to the final positive L2 rescaling, which cosine similarity cancels.
Unnormalised, every bucket holds a natural number of n-gram occurrences. -/

/-- Rust `char::is_whitespace` (Unicode `White_Space`). -/
def isRustWhitespace (c : Char) : Bool :=
  c.toNat ∈ [0x9, 0xA, 0xB, 0xC, 0xD, 0x20, 0x85, 0xA0, 0x1680,
    0x2000, 0x2001, 0x2002, 0x2003, 0x2004, 0x2005, 0x2006, 0x2007,
    0x2008, 0x2009, 0x200A, 0x2028, 0x2029, 0x202F, 0x205F, 0x3000]

/-- Rust `char::to_ascii_lowercase`: lowercases ASCII `A`-`Z` only. -/
def toAsciiLower (c : Char) : Char :=
  if 'A' ≤ c ∧ c ≤ 'Z' then Char.ofNat (c.toNat + 32) else c

/-- The body of the fold in `normalize_text`: lowercase, collapse whitespace
runs to a single `' '`.  The accumulator is `(out, last_ws)`. -/
def normStep (acc : Str × Bool) (ch : Char) : Str × Bool :=
  let ch := toAsciiLower ch
  if isRustWhitespace ch then
    if acc.2 then acc else (acc.1 ++ [' '], true)
  else
    (acc.1 ++ [ch], false)

/-- `normalize_text` from src/semantic.rs: ASCII-lowercase, collapse
whitespace runs to one space, trim.  After collapsing, the only whitespace
left is `' '`, so Rust `str::trim` is dropping spaces at both ends. -/
def normalizeText (s : Str) : Str :=
  let out := (s.foldl normStep ([], false)).1
  (out.reverse.dropWhile (fun c => c == ' ')).reverse.dropWhile (fun c => c == ' ')

/-- The FNV-style mixer of `vectorize_char_ngrams`: over one n-gram,
`h = (h XOR ch) wrapping_mul 16777619-style prime`, on 64 bits. -/
def fnvHash (gram : Str) : Nat :=
  gram.foldl (fun h ch => ((h ^^^ ch.toNat) * 1099511628211) % (2 ^ 64))
    1469598103934665603

/-- All n-grams of length `n` of `chars` (empty when `chars.length < n`),
hashed.  Mirrors the inner loop `for i in 0..=(chars.len() - n)`. -/
def ngramHashesAt (chars : Str) (n : Nat) : List Nat :=
  if chars.length < n then []
  else (List.range (chars.length - n + 1)).map
    (fun i => fnvHash ((chars.drop i).take n))

/-- All hashed n-grams for `n` in `[nmin, nmax]` of the normalised text
(the multiset underlying `SparseVec.counts`, with multiplicity). -/
def ngramHashes (text : Str) (nmin nmax : Nat) : List Nat :=
  ((List.range (nmax + 1 - nmin)).map (fun k => k + nmin)).flatMap
    (fun n => ngramHashesAt (normalizeText text) n)

/-- `sparse_to_dense` bucket folding: `vec[hash % 128] += count`, i.e.
bucket `i` holds the number of n-gram occurrences hashing to `i` mod 128.
(The final L2 rescaling of `sparse_to_dense` is deliberately not applied;
see the header comment.) -/
def bucketCounts (hs : List Nat) : List Nat :=
  (List.range 128).map (fun i => (hs.filter (fun h => h % 128 == i)).length)

/-- The dense vector `sparse_to_dense(vectorize_char_ngrams(text, nmin,
nmax))`, up to its positive L2 rescaling. -/
def denseCounts (text : Str) (nmin nmax : Nat) : List Nat :=
  bucketCounts (ngramHashes text nmin nmax)

/-- Dot product of two dense count vectors (the `dot` accumulator of
`cosine_similarity`; on count vectors it is a natural number). -/
def dotN (a b : List Nat) : Nat := (List.zipWith (fun x y => x * y) a b).sum

/-- Squared L2 norm (the `norm_a`/`norm_b` accumulators of
`cosine_similarity` before the square root). -/
def normSqN (a : List Nat) : Nat := dotN a a

/-- The comparison `cosine_similarity(a, b) >= t`, square-root-free.
`cosine_similarity` returns `0.0` when either norm is `0`, else
`dot / (sqrt (normSq a) * sqrt (normSq b))`, which on count vectors is
nonnegative; so the score reaches a threshold `t = t.num / t.den` iff
`t <= 0` (i.e. `t.num <= 0`) or `t^2 * normA * normB <= dot^2`, cleared of
denominators.  `scoreGeB_correct` below proves this Boolean equivalent to
the real-valued comparison. -/
def scoreGeB (a b : List Nat) (t : ℚ) : Bool :=
  let d := dotN a b
  if normSqN a = 0 ∨ normSqN b = 0 then decide (t.num ≤ 0)
  else decide (t.num ≤ 0) ||
    decide (t.num * t.num * ((normSqN a * normSqN b : ℕ) : ℤ) ≤
      (t.den : ℤ) * (t.den : ℤ) * ((d * d : ℕ) : ℤ))

/-- The comparison `cosine_similarity(x, b) > cosine_similarity(x, c)`,
square-root-free (the `score > best_score` test of `evaluate`; both scores
share the input vector `x`).  On count vectors both scores are nonnegative,
and a zero norm forces a `0.0` score, so the strict comparison is the
cross-multiplied `dot_c^2 * normSq b < dot_b^2 * normSq c`;
`scoreGtB_correct` below proves this Boolean equivalent to the real-valued
comparison. -/
def scoreGtB (x b c : List Nat) : Bool :=
  let db := dotN x b
  let dc := dotN x c
  if normSqN x = 0 ∨ normSqN b = 0 then false   -- score against b is 0.0
  else if normSqN x = 0 ∨ normSqN c = 0 then decide (0 < db)
  else decide (dc * dc * normSqN b < db * db * normSqN c)

/-- `compile_semantic` from src/semantic.rs: one stored vector per example,
built with the configured n-gram range `[max(ngram_min.unwrap_or(3), 1),
max(ngram_max.unwrap_or(5), that)]`. -/
def compileSemantic (cfg : SemanticConfig) : CompiledSemantic :=
  let nmin := max (cfg.ngramMin.getD 3) 1
  let nmax := max (cfg.ngramMax.getD 5) nmin
  { enabled := cfg.enabled
    appliesTo := cfg.appliesTo
    action := cfg.action
    threshold := cfg.threshold
    cases := cfg.cases.map (fun c =>
      { id := c.id
        description := c.description
        examples := c.examples.map (fun ex =>
          { text := ex.text, ngramVec := denseCounts ex.text nmin nmax }) }) }

/-- `applies` (identical in src/semantic.rs and src/api.rs). -/
def applies (a : AppliesTo) (k : Kind) : Bool :=
  match a, k with
  | .both, _ => true
  | .prompt, .prompt => true
  | .response, .response => true
  | _, _ => false

/-- The nested best-score loop of `evaluate`: scan all examples of all cases
in order, keeping the strictly best-scoring one (the first on ties).  The
source keeps the best `f32` score; the model keeps the best example's vector
and recomputes the comparison, which is the same value. -/
def bestMatch (input : List Nat) (cases : List CompiledSemanticCase) :
    Option (String × CompiledExample) :=
  cases.foldl (fun best c =>
    c.examples.foldl (fun best ex =>
      match best with
      | none => some (c.id, ex)
      | some (_, bestEx) =>
          if scoreGtB input ex.ngramVec bestEx.ngramVec then some (c.id, ex) else best)
      best) none

/-- `evaluate` from src/semantic.rs.  Note the eval-time vectorization uses
the fixed range `[3, 5]` — `vectorize_char_ngrams(text, 3, 5)` is hardcoded
at line 72 and `CompiledSemantic` does not retain the configured range.
Returns `(case_id, example_text)` of the winner when its score reaches the
threshold (the `f32` score also returned by the source carries no extra
information for any claim). -/
def semEvaluate (c : CompiledSemantic) (kind : Kind) (text : Str) :
    Option (String × Str) :=
  if c.enabled = false then none
  else if applies c.appliesTo kind = false then none
  else
    let input := denseCounts text 3 5
    match bestMatch input c.cases with
    | some (cid, ex) =>
        if scoreGeB input ex.ngramVec c.threshold then some (cid, ex.text) else none
    | none => none

/-! ## Store operations (src/store.rs) -/

/-- `apply_policy`: compile first (failure leaves state and disk untouched);
on success swap state and persist the document.  The disk write is modelled
as always succeeding (no claim concerns the I/O-failure path). -/
def applyPolicy (rc : RegexComp) (st : StoreState) (p : PolicyFile) :
    StoreState × Except String Unit :=
  match compileAll rc p.rules with
  | .error e => (st, .error e)
  | .ok compiled =>
      ({ policy := p
         compiled := compiled
         semanticCompiled := compileSemantic p.semantic
         disk := some p }, .ok ())

/-! ## PII detector (src/pii_regex.rs)

The four `Regex` matchers of `PiiRegexDetector` live in the external `regex`
crate; the detector is embedded parameterised by the candidate spans each
regex's `find_iter` yields on the given text (`Cands`).  Everything from the
post-filters on is the repository's own code and is embedded directly. -/

inductive PiiType
  | email
  | ip
  | creditCard
  | phone
deriving DecidableEq

/-- `format!("\x7b:?\x7d", pii_type)`: the Rust `Debug` variant name. -/
def PiiType.debugStr : PiiType → String
  | .email => "Email"
  | .ip => "Ip"
  | .creditCard => "CreditCard"
  | .phone => "Phone"

structure Finding where
  piiType : PiiType
  start : Nat
  stop : Nat          -- Rust field `end` (a Lean keyword)
  text : Str
deriving DecidableEq

/-- A half-open candidate span `[start, stop)` produced by one regex match. -/
structure Span where
  start : Nat
  stop : Nat
deriving DecidableEq

/-- The candidate spans `find_iter` yields for each of the four regexes. -/
structure Cands where
  email : List Span
  ipv4 : List Span
  cc : List Span
  phone : List Span
deriving DecidableEq

/-- `&text[s..e]` as a list slice. -/
def slice (text : Str) (s e : Nat) : Str := (text.drop s).take (e - s)

/-- `s.chars().filter(|c| c.is_ascii_digit())`. -/
def digitsOf (s : Str) : Str := s.filter Char.isDigit

/-- Rust `str::parse::<u16>()`: optional leading `+`, then one or more ASCII
digits, value at most `65535`. -/
def parseU16 (s : Str) : Option Nat :=
  let ds := match s with
            | '+' :: rest => rest
            | _ => s
  if ds = [] then none
  else if ds.all Char.isDigit then
    let n := ds.foldl (fun acc c => acc * 10 + (c.toNat - 48)) 0
    if n ≤ 65535 then some n else none
  else none

/-- Rust `str::split('.')`: splits on every dot, keeping empty pieces
(`""` splits to `[""]`). -/
def splitOnDot : Str → List Str
  | [] => [[]]
  | c :: cs =>
      if c = '.' then [] :: splitOnDot cs
      else
        match splitOnDot cs with
        | p :: ps => (c :: p) :: ps
        | [] => [[c]]

/-- `is_valid_ipv4` from src/pii_regex.rs: exactly four dot-separated
pieces, each non-empty, at most 3 characters, parsing as a `u16` value of at
most 255. -/
def isValidIpv4 (s : Str) : Bool :=
  let parts := splitOnDot s
  if parts.length ≠ 4 then false
  else parts.all (fun p =>
    if p = [] then false
    else if p.length > 3 then false
    else match parseU16 p with
         | some n => decide (n ≤ 255)
         | none => false)

/-- One step of the Luhn fold over `digits.chars().rev()`: the accumulator
is `(sum, double)`. -/
def luhnStep (acc : Nat × Bool) (ch : Char) : Nat × Bool :=
  let d := ch.toNat - 48
  let d := if acc.2 then (if d * 2 > 9 then d * 2 - 9 else d * 2) else d
  (acc.1 + d, !acc.2)

/-- `luhn_valid` from src/pii_regex.rs. -/
def luhnValid (digits : Str) : Bool :=
  (digits.reverse.foldl luhnStep (0, false)).1 % 10 == 0

/-- The post-filter on a credit-card candidate (src/pii_regex.rs lines
80-91): digits-only length in `[13, 19]` and Luhn-valid. -/
def ccKeep (sl : Str) : Bool :=
  let ds := digitsOf sl
  13 ≤ ds.length && ds.length ≤ 19 && luhnValid ds

/-- The post-filter on a phone candidate (lines 94-106): digits-only length
in `[8, 15]`. -/
def phoneKeep (sl : Str) : Bool :=
  let ds := digitsOf sl
  8 ≤ ds.length && ds.length ≤ 15

/-- The candidate `Finding` list `detect` accumulates in `out` before
sorting: emails unconditionally, then IPv4 / credit-card / phone candidates
surviving their post-filters, in the source's push order. -/
def rawFindings (c : Cands) (text : Str) : List Finding :=
  c.email.map (fun s => ⟨.email, s.start, s.stop, slice text s.start s.stop⟩)
  ++ c.ipv4.filterMap (fun s =>
      let sl := slice text s.start s.stop
      if isValidIpv4 sl then some ⟨.ip, s.start, s.stop, sl⟩ else none)
  ++ c.cc.filterMap (fun s =>
      let sl := slice text s.start s.stop
      if ccKeep sl then some ⟨.creditCard, s.start, s.stop, sl⟩ else none)
  ++ c.phone.filterMap (fun s =>
      let sl := slice text s.start s.stop
      if phoneKeep sl then some ⟨.phone, s.start, s.stop, sl⟩ else none)

/-- The sort order `(start ascending, end descending)` of
`out.sort_by(|a, b| a.start.cmp(&b.start).then(b.end.cmp(&a.end)))`. -/
def findingLe (a b : Finding) : Prop :=
  a.start < b.start ∨ (a.start = b.start ∧ b.stop ≤ a.stop)

instance : DecidableRel findingLe := fun a b => by unfold findingLe; infer_instance

/-- The sweep of `merge_overlaps`: `none` models `out.is_empty()`, `some le`
the running `last_end`; a candidate with `start < last_end` is dropped. -/
def mergeGo : List Finding → Option Nat → List Finding
  | [], _ => []
  | f :: rest, none => f :: mergeGo rest (some f.stop)
  | f :: rest, some le =>
      if f.start < le then mergeGo rest (some le)
      else f :: mergeGo rest (some f.stop)

/-- `merge_overlaps` from src/pii_regex.rs. -/
def mergeOverlaps (sorted : List Finding) : List Finding := mergeGo sorted none

/-- `detect` from src/pii_regex.rs: collect candidates, post-filter,
stable-sort by `(start ascending, end descending)`, sweep overlaps. -/
def detect (c : Cands) (text : Str) : List Finding :=
  mergeOverlaps (List.insertionSort findingLe (rawFindings c text))

/-! ## Evaluator (src/api.rs) -/

/-- `field_value`: missing `tenant`/`model` read as the empty string. -/
def fieldValue (f : Field) (req : EvalRequest) : Str :=
  match f with
  | .text => req.text
  | .tenant => req.tenant.getD []
  | .model => req.model.getD []

/-- `match_one` from src/api.rs. -/
def matchOne (m : CompiledMatch) (req : EvalRequest) : Bool :=
  match m with
  | .exact f v => fieldValue f req == v
  | .regex f re _ => re (fieldValue f req)
  | .keywords f vs => acIsMatch vs (fieldValue f req)

/-- `evaluate_stage1` from src/api.rs: first applicable matching rule wins;
its `reason` is the rule description, defaulting to `"matched"`. -/
def evaluateStage1 : List CompiledRule → EvalRequest →
    Action × Option String × Option String
  | [], _ => (.allow, none, none)
  | r :: rest, req =>
      if applies r.appliesTo req.kind = false then evaluateStage1 rest req
      else if r.whenAny.any (fun m => matchOne m req) then
        (r.action, some r.id, some (r.description.getD "matched"))
      else evaluateStage1 rest req

/-- `masked.replace_range(s..e, token)`. -/
def replaceRange (s e : Nat) (token : Str) (text : Str) : Str :=
  text.take s ++ token ++ text.drop e

/-- The redaction loop of `eval` (src/api.rs lines 137-139): replacements
applied right-to-left (`findings.iter().rev()`), so earlier spans' offsets
stay valid. -/
def applyRedactions (token : Str) (text : Str) (findings : List Finding) : Str :=
  findings.foldr (fun f acc => replaceRange f.start f.stop token acc) text

/-- The detector filter of `eval` (lines 125-133): keep findings whose type
flag is enabled. -/
def detectorOn (d : PiiDetectors) : PiiType → Bool
  | .email => d.email
  | .ip => d.ip
  | .creditCard => d.creditCard
  | .phone => d.phone

/-- The outcome of the `eval` handler: a 200 response, or the 413
payload-too-large rejection. -/
inductive EvalOutcome
  | ok (resp : EvalResponse)
  | payloadTooLarge
deriving DecidableEq

/-- The `output_text` of an outcome (none for a 413). -/
def outcomeOutputText : EvalOutcome → Option Str
  | .ok resp => resp.outputText
  | .payloadTooLarge => none

/-- The `eval` handler from src/api.rs (lines 80-173), given the snapshots
the store would hand it and the regex candidates of the detector.  Stage 1
runs first and a block short-circuits; only then is the payload guard
checked against `pii.max_bytes`; then (no other stage exists in the handler —
in particular nothing consults the semantic snapshot) the PII stage runs
when enabled, applicable and in redact mode. -/
def evalHandler (compiled : List CompiledRule) (piiCfg : PiiConfig)
    (cands : Cands) (req : EvalRequest) : EvalOutcome :=
  let s1 := evaluateStage1 compiled req
  if s1.1 = .block then
    .ok { action := .block, matchedRule := s1.2.1, reason := s1.2.2,
          outputText := none, pii := none }
  else if piiCfg.maxBytes < byteLen req.text then .payloadTooLarge
  else
    let shouldRun := piiCfg.enabled && applies piiCfg.appliesTo req.kind
      && piiCfg.mode == .redact
    if shouldRun then
      let findings := (detect cands req.text).filter
        (fun f => detectorOn piiCfg.detectors f.piiType)
      if findings.isEmpty then
        .ok { action := .allow, matchedRule := s1.2.1, reason := s1.2.2,
              outputText := none, pii := none }
      else
        let masked := applyRedactions piiCfg.redactionToken req.text findings
        let pii := if piiCfg.includeFindings then
            some (findings.map (fun f =>
              { entityType := f.piiType.debugStr, start := f.start,
                stop := f.stop, score := 1, text := f.text }))
          else none
        .ok { action := .allow, matchedRule := s1.2.1, reason := s1.2.2,
              outputText := some masked, pii := pii }
    else
      .ok { action := .allow, matchedRule := s1.2.1, reason := s1.2.2,
            outputText := none, pii := none }

/-! ## Specification-side shapes and invariants -/

/-- Well-formedness of a finding list for splicing into `text` from position
`pos` on: spans are in bounds, ordered, and pairwise non-overlapping.  This
is the invariant `detect` establishes (claim C6) and redaction needs. -/
def spansOkB (text : Str) : Nat → List Finding → Bool
  | pos, [] => decide (pos ≤ text.length)
  | pos, f :: rest =>
      decide (pos ≤ f.start) && decide (f.start ≤ f.stop) && spansOkB text f.stop rest

/-- Specification shape of redaction (the claim's wording): from position
`pos` on, the output is the untouched segment up to the next span, then the
token in place of the span, and so on; after the last span the rest of the
text is kept verbatim.  Every position outside the spans is preserved. -/
def redactFrom (text token : Str) : Nat → List Finding → Str
  | pos, [] => text.drop pos
  | pos, f :: rest =>
      (text.drop pos).take (f.start - pos) ++ token ++ redactFrom text token f.stop rest

/-- The claimed length delta of redaction:
`sum over spans of (|token| - (end - start))`. -/
def redactDelta (token : Str) (fs : List Finding) : ℤ :=
  (fs.map (fun f => (token.length : ℤ) - ((f.stop : ℤ) - (f.start : ℤ)))).sum

/-- All candidate spans of a `Cands`, in push order. -/
def allSpans (c : Cands) : List Span := c.email ++ c.ipv4 ++ c.cc ++ c.phone

/-! ## Concrete scenarios used by the claims -/

/-- Regex compiler double for scenarios: the policies below contain no
`regex` match expression, so the regex compiler is never consulted. -/
def noRegex : RegexComp := fun _ => none

/-- Detector candidates for a text none of the four regexes matches. -/
def noCands : Cands := ⟨[], [], [], []⟩

/-- Store state of a freshly loaded empty policy (missing file: `rules: []`,
all sections defaulted, nothing on disk yet). -/
def st0 : StoreState :=
  { policy := { rules := [], pii := PiiConfig.default, semantic := SemanticConfig.default }
    compiled := []
    semanticCompiled := compileSemantic SemanticConfig.default
    disk := none }

/-- C1 scenario: semantic matching enabled for prompts with action `block`,
threshold `0.5`, one case whose single example is `"jailbreak"`. -/
def c1Semantic : SemanticConfig :=
  { enabled := true, appliesTo := .prompt, action := .block, threshold := mkRat 1 2
    cases := [{ id := "jb", description := none
                examples := [{ text := "jailbreak".data, embedding := none }] }]
    ngramMin := none, ngramMax := none }

/-- C1 scenario: the prompt request whose text is exactly the example. -/
def c1Req : EvalRequest := { kind := .prompt, text := "jailbreak".data, tenant := none, model := none }

/-- C2/C8 scenario: a well-formed block rule matching the text `"x"`. -/
def dupRule : Rule :=
  { id := "dup", description := none, appliesTo := .prompt, action := .block,
    priority := 1, «when» := ⟨[.exact .text "x".data]⟩ }

/-- C2 scenario: a policy containing the same rule id twice. -/
def dupPolicy : PolicyFile :=
  { rules := [dupRule, dupRule], pii := PiiConfig.default, semantic := SemanticConfig.default }

/-- C3 scenario, rule A: block at priority 5, matching exactly `t`. -/
def c3RuleA (t : Str) : Rule :=
  { id := "A", description := none, appliesTo := .prompt, action := .block,
    priority := 5, «when» := ⟨[.exact .text t]⟩ }

/-- C3 scenario, rule B: allow at priority 5, matching exactly `t`. -/
def c3RuleB (t : Str) : Rule :=
  { id := "B", description := none, appliesTo := .prompt, action := .allow,
    priority := 5, «when» := ⟨[.exact .text t]⟩ }

/-- C3 scenario: the prompt request with text `t` (both rules match it). -/
def c3Req (t : Str) : EvalRequest := { kind := .prompt, text := t, tenant := none, model := none }

/-- C4 scenario: a block rule matching the 11-byte text exactly. -/
def c4Rule : Rule :=
  { id := "c4", description := none, appliesTo := .prompt, action := .block,
    priority := 1, «when» := ⟨[.exact .text "aaaaaaaaaaa".data]⟩ }

/-- C4 scenario: PII config with `max_bytes = 10`. -/
def c4Pii : PiiConfig := { PiiConfig.default with maxBytes := 10 }

/-- C4 scenario: an 11-byte request text, exceeding `max_bytes = 10`. -/
def c4Req : EvalRequest :=
  { kind := .prompt, text := "aaaaaaaaaaa".data, tenant := none, model := none }

/-- C5/C6 scenario text: spec scenario 2. -/
def c5Text : Str := "me@x.io from 8.8.8.8".data

/-- C5/C6 scenario candidates: the email regex matches `me@x.io` at bytes
`[0, 7)` and the IPv4 regex matches `8.8.8.8` at `[13, 20)`; the
credit-card and phone regexes find nothing in this text. -/
def c5Cands : Cands := ⟨[⟨0, 7⟩], [⟨13, 20⟩], [], []⟩

/-- C5/C6 scenario PII config: email and ip detectors on, redact mode. -/
def c5Pii : PiiConfig :=
  { PiiConfig.default with
      detectors := { email := true, ip := true, creditCard := false, phone := false } }

/-- C5/C6 scenario request (a response, `pii.applies_to = both`). -/
def c5Req : EvalRequest := { kind := .response, text := c5Text, tenant := none, model := none }

/-- C7 scenario text: spec scenario 3. -/
def c7Text : Str := "card 4111111111111111".data

/-- C7 scenario candidates: the credit-card regex matches the 16 digits at
bytes `[5, 21)`; the phone regex matches the same span (its digit-count
post-filter then discards it: 16 > 15); email and IPv4 match nothing. -/
def c7Cands : Cands := ⟨[], [], [⟨5, 21⟩], [⟨5, 21⟩]⟩

/-- C7 scenario: the credit-card finding `detect` emits. -/
def c7Finding : Finding := ⟨.creditCard, 5, 21, "4111111111111111".data⟩

/-- C8 scenario: a rule whose only match expression is `keywords` with an
empty values list. -/
def kwRule : Rule :=
  { id := "kw", description := none, appliesTo := .prompt, action := .block,
    priority := 1, «when» := ⟨[.keywords .text []]⟩ }

/-- C8 scenario: a policy containing only the empty-keywords rule. -/
def kwPolicy : PolicyFile :=
  { rules := [kwRule], pii := PiiConfig.default, semantic := SemanticConfig.default }

/-- C9 scenario: semantic config with `ngram_min = ngram_max = 4` and
threshold `1.0`, one case whose single example is `"abcd"`. -/
def c9Semantic : SemanticConfig :=
  { enabled := true, appliesTo := .prompt, action := .block, threshold := mkRat 1 1
    cases := [{ id := "c", description := none
                examples := [{ text := "abcd".data, embedding := none }] }]
    ngramMin := some 4, ngramMax := some 4 }

/-- C10 witness scenario: an enabled semantic config with the default
threshold `0.88` and one non-trivial case. -/
def c10Semantic : SemanticConfig :=
  { enabled := true, appliesTo := .both, action := .block, threshold := mkRat 88 100
    cases := [{ id := "case", description := none
                examples := [{ text := "some example".data, embedding := none }] }]
    ngramMin := none, ngramMax := none }

/-! ## Redaction lemmas -/

theorem spansOk_le {text : Str} {fs : List Finding} :
    ∀ {pos : Nat}, spansOkB text pos fs = true → pos ≤ text.length := by
  induction fs with
  | nil => intro pos h; simpa [spansOkB] using h
  | cons f rest ih =>
      intro pos h
      simp only [spansOkB, Bool.and_eq_true, decide_eq_true_eq] at h
      exact h.1.1.trans (h.1.2.trans (ih h.2))

theorem applyRedactions_cons (token text : Str) (f : Finding) (rest : List Finding) :
    applyRedactions token text (f :: rest) =
      replaceRange f.start f.stop token (applyRedactions token text rest) := rfl

/-- The right-to-left splice loop of `eval` produces exactly the
left-to-right segment interleaving `redactFrom`, on any well-formed span
list. -/
theorem applyRedactions_eq (text token : Str) :
    ∀ (fs : List Finding) (pos : Nat), spansOkB text pos fs = true →
      applyRedactions token text fs = text.take pos ++ redactFrom text token pos fs := by
  intro fs
  induction fs with
  | nil =>
      intro pos _
      simp [applyRedactions, redactFrom, List.take_append_drop]
  | cons f rest ih =>
      intro pos h
      simp only [spansOkB, Bool.and_eq_true, decide_eq_true_eq] at h
      obtain ⟨⟨hpf, hff⟩, hrest⟩ := h
      have hstop : f.stop ≤ text.length := spansOk_le hrest
      have hA := ih f.stop hrest
      rw [applyRedactions_cons, hA]
      have hlen : (text.take f.stop).length = f.stop := by
        simp [List.length_take, Nat.min_eq_left hstop]
      have htake : (text.take f.stop ++ redactFrom text token f.stop rest).take f.start
          = text.take f.start := by
        rw [List.take_append_of_le_length (by omega), List.take_take,
          Nat.min_eq_left hff]
      have hdrop : (text.take f.stop ++ redactFrom text token f.stop rest).drop f.stop
          = redactFrom text token f.stop rest := by
        have h' := List.drop_left (text.take f.stop) (redactFrom text token f.stop rest)
        rwa [hlen] at h'
      rw [replaceRange, htake, hdrop, redactFrom]
      have hsplit : text.take f.start
          = text.take pos ++ (text.drop pos).take (f.start - pos) := by
        rw [← List.take_add]
        congr 1
        omega
      rw [hsplit]
      simp

/-- Length of the redacted text: the original length plus
`sum (|token| - (stop - start))` over the spans. -/
theorem redactFrom_length (text token : Str) :
    ∀ (fs : List Finding) (pos : Nat), spansOkB text pos fs = true →
      ((redactFrom text token pos fs).length : ℤ)
        = (text.length : ℤ) - pos + redactDelta token fs := by
  intro fs
  induction fs with
  | nil =>
      intro pos h
      simp only [spansOkB, decide_eq_true_eq] at h
      simp [redactFrom, redactDelta, List.length_drop]
      omega
  | cons f rest ih =>
      intro pos h
      simp only [spansOkB, Bool.and_eq_true, decide_eq_true_eq] at h
      obtain ⟨⟨hpf, hff⟩, hrest⟩ := h
      have hstop : f.stop ≤ text.length := spansOk_le hrest
      have hIH := ih f.stop hrest
      simp only [redactFrom, List.length_append, List.length_take, List.length_drop,
        redactDelta, List.map_cons, List.sum_cons] at *
      have hmin : min (f.start - pos) (text.length - pos) = f.start - pos := by omega
      rw [hmin]
      push_cast at *
      omega

/-! ## Detector lemmas -/

theorem mergeGo_subset : ∀ (l : List Finding) (st : Option Nat) {f : Finding},
    f ∈ mergeGo l st → f ∈ l := by
  intro l
  induction l with
  | nil => intro st f h; simp [mergeGo] at h
  | cons g rest ih =>
      intro st f h
      cases st with
      | none =>
          rw [mergeGo] at h
          rcases List.mem_cons.mp h with h | h
          · exact h ▸ List.mem_cons_self g rest
          · exact List.mem_cons_of_mem _ (ih _ h)
      | some le =>
          rw [mergeGo] at h
          by_cases hg : g.start < le
          · rw [if_pos hg] at h
            exact List.mem_cons_of_mem _ (ih _ h)
          · rw [if_neg hg] at h
            rcases List.mem_cons.mp h with h | h
            · exact h ▸ List.mem_cons_self g rest
            · exact List.mem_cons_of_mem _ (ih _ h)

theorem mergeGo_head_ge : ∀ (l : List Finding) (le : Nat) (f : Finding)
    (rest' : List Finding), mergeGo l (some le) = f :: rest' → le ≤ f.start := by
  intro l
  induction l with
  | nil => intro le f rest' h; simp [mergeGo] at h
  | cons g rest ih =>
      intro le f rest' h
      rw [mergeGo] at h
      by_cases hg : g.start < le
      · rw [if_pos hg] at h
        exact ih _ _ _ h
      · rw [if_neg hg] at h
        obtain ⟨h1, -⟩ := List.cons.injEq .. ▸ h
        have := List.head_eq_of_cons_eq h
        rw [← this]
        omega

/-- The sweep of `merge_overlaps` always emits non-overlapping spans: each
kept finding starts at or after the previous kept finding's end. -/
theorem mergeGo_chain : ∀ (l : List Finding) (st : Option Nat),
    List.Chain' (fun f g => f.stop ≤ g.start) (mergeGo l st) := by
  intro l
  induction l with
  | nil => intro st; simp [mergeGo]
  | cons g rest ih =>
      intro st
      have hcons : ∀ tail, tail = mergeGo rest (some g.stop) →
          List.Chain' (fun f g => f.stop ≤ g.start) (g :: tail) := by
        intro tail htail
        refine List.chain'_cons'.mpr ⟨?_, htail ▸ ih _⟩
        intro y hy
        cases hm : tail with
        | nil => rw [hm] at hy; simp at hy
        | cons f rest' =>
            rw [hm] at hy
            simp only [List.head?_cons, Option.mem_some_iff] at hy
            subst hy
            exact mergeGo_head_ge rest g.stop f rest' (by rw [← htail, hm])
      cases st with
      | none => rw [mergeGo]; exact hcons _ rfl
      | some le =>
          rw [mergeGo]
          by_cases hg : g.start < le
          · rw [if_pos hg]; exact ih _
          · rw [if_neg hg]; exact hcons _ rfl

theorem detect_subset (c : Cands) (text : Str) {f : Finding}
    (h : f ∈ detect c text) : f ∈ rawFindings c text :=
  (List.perm_insertionSort findingLe (rawFindings c text)).subset
    (mergeGo_subset _ _ h)

/-- Every finding `detect` emits carries the span of one of the regex
candidates. -/
theorem rawFindings_spans {c : Cands} {text : Str} {f : Finding}
    (h : f ∈ rawFindings c text) :
    ∃ s ∈ allSpans c, f.start = s.start ∧ f.stop = s.stop := by
  simp only [rawFindings, List.mem_append, List.mem_map, List.mem_filterMap] at h
  rcases h with ((⟨s, hs, hf⟩ | ⟨s, hs, hf⟩) | ⟨s, hs, hf⟩) | ⟨s, hs, hf⟩
  · exact ⟨s, by simp [allSpans, hs], by rw [← hf], by rw [← hf]⟩
  · split at hf
    · have hf' := Option.some.inj hf
      exact ⟨s, by simp [allSpans, hs], by rw [← hf'], by rw [← hf']⟩
    · simp at hf
  · split at hf
    · have hf' := Option.some.inj hf
      exact ⟨s, by simp [allSpans, hs], by rw [← hf'], by rw [← hf']⟩
    · simp at hf
  · split at hf
    · have hf' := Option.some.inj hf
      exact ⟨s, by simp [allSpans, hs], by rw [← hf'], by rw [← hf']⟩
    · simp at hf

/-! ## Semantic score lemmas

`cosine_similarity(a, b)` denotes `0` if either norm is zero, else
`dot / (sqrt (normSq a) * sqrt (normSq b))`; the two Boolean comparators
are proved equivalent to the real comparisons of these values. -/

theorem rat_num_nonpos {t : ℚ} : t.num ≤ 0 ↔ t ≤ 0 := by
  rw [← not_lt, ← not_lt, not_iff_not]
  exact Rat.num_pos

/-- `scoreGeB a b t` decides `t <= cosine_similarity(a, b)` exactly. -/
theorem scoreGeB_correct (a b : List Nat) (t : ℚ) :
    scoreGeB a b t = true ↔
      (t : ℝ) ≤ (if normSqN a = 0 ∨ normSqN b = 0 then (0 : ℝ)
        else (dotN a b : ℝ) / (Real.sqrt (normSqN a) * Real.sqrt (normSqN b))) := by
  by_cases hz : normSqN a = 0 ∨ normSqN b = 0
  · simp only [scoreGeB, if_pos hz, decide_eq_true_eq]
    rw [rat_num_nonpos]
    exact_mod_cast (Rat.cast_nonpos (K := ℝ)).symm
  · push_neg at hz
    have hz' : ¬ (normSqN a = 0 ∨ normSqN b = 0) := not_or.mpr ⟨hz.1, hz.2⟩
    have hna : (0 : ℝ) < (normSqN a : ℝ) := by exact_mod_cast Nat.pos_of_ne_zero hz.1
    have hnb : (0 : ℝ) < (normSqN b : ℝ) := by exact_mod_cast Nat.pos_of_ne_zero hz.2
    have hs : (0 : ℝ) < Real.sqrt (normSqN a) * Real.sqrt (normSqN b) :=
      mul_pos (Real.sqrt_pos.mpr hna) (Real.sqrt_pos.mpr hnb)
    have hssq : (Real.sqrt (normSqN a) * Real.sqrt (normSqN b)) ^ 2
        = (normSqN a : ℝ) * (normSqN b : ℝ) := by
      rw [mul_pow, Real.sq_sqrt hna.le, Real.sq_sqrt hnb.le]
    have hd : (0 : ℝ) ≤ (dotN a b : ℝ) := Nat.cast_nonneg _
    have htden : (0 : ℝ) < (t.den : ℝ) := by exact_mod_cast t.den_pos
    simp only [scoreGeB, if_neg hz', Bool.or_eq_true, decide_eq_true_eq]
    rw [le_div_iff₀ hs, rat_num_nonpos]
    constructor
    · rintro (ht | hineq)
      · calc (t : ℝ) * (Real.sqrt (normSqN a) * Real.sqrt (normSqN b)) ≤ 0 :=
              mul_nonpos_of_nonpos_of_nonneg (by exact_mod_cast ht) hs.le
          _ ≤ (dotN a b : ℝ) := hd
      · -- clear the denominators of t = t.num / t.den and compare squares
        have hcast : (t.num : ℝ) * t.num * ((normSqN a : ℝ) * (normSqN b : ℝ))
            ≤ (t.den : ℝ) * (t.den : ℝ) * ((dotN a b : ℝ) * (dotN a b : ℝ)) := by
          exact_mod_cast hineq
        have ht : (t : ℝ) = (t.num : ℝ) / (t.den : ℝ) := by
          exact_mod_cast (Rat.cast_def t : ((t : ℝ) = _))
        rw [ht, div_mul_eq_mul_div, div_le_iff₀ htden]
        have hsq : ((t.num : ℝ) * (Real.sqrt (normSqN a) * Real.sqrt (normSqN b))) ^ 2
            ≤ ((dotN a b : ℝ) * (t.den : ℝ)) ^ 2 := by
          rw [mul_pow, hssq]
          ring_nf
          ring_nf at hcast
          nlinarith [hcast]
        have hB : (0 : ℝ) ≤ (dotN a b : ℝ) * (t.den : ℝ) := mul_nonneg hd htden.le
        nlinarith [hsq, hB]
    · intro hle
      by_cases ht0 : t ≤ 0
      · exact Or.inl ht0
      · right
        push_neg at ht0
        have htpos : (0 : ℝ) < (t : ℝ) := by exact_mod_cast ht0
        have hts : (0 : ℝ) ≤ (t : ℝ) * (Real.sqrt (normSqN a) * Real.sqrt (normSqN b)) :=
          (mul_pos htpos hs).le
        have hsq : ((t : ℝ) * (Real.sqrt (normSqN a) * Real.sqrt (normSqN b))) ^ 2
            ≤ (dotN a b : ℝ) ^ 2 := by
          have := mul_le_mul hle hle hts hd
          calc ((t : ℝ) * (Real.sqrt (normSqN a) * Real.sqrt (normSqN b))) ^ 2
              = ((t : ℝ) * (Real.sqrt (normSqN a) * Real.sqrt (normSqN b)))
                * ((t : ℝ) * (Real.sqrt (normSqN a) * Real.sqrt (normSqN b))) := by ring
            _ ≤ (dotN a b : ℝ) * (dotN a b : ℝ) := this
            _ = (dotN a b : ℝ) ^ 2 := by ring
        rw [mul_pow, hssq] at hsq
        have ht : (t : ℝ) = (t.num : ℝ) / (t.den : ℝ) := by
          exact_mod_cast (Rat.cast_def t : ((t : ℝ) = _))
        have hgoal : (t.num : ℝ) * t.num * ((normSqN a : ℝ) * (normSqN b : ℝ))
            ≤ (t.den : ℝ) * (t.den : ℝ) * ((dotN a b : ℝ) * (dotN a b : ℝ)) := by
          rw [ht] at hsq
          have h2 : ((t.num : ℝ) / (t.den : ℝ)) ^ 2 * ((normSqN a : ℝ) * (normSqN b : ℝ))
              ≤ (dotN a b : ℝ) ^ 2 := hsq
          rw [div_pow, div_mul_eq_mul_div, div_le_iff₀ (by positivity)] at h2
          nlinarith [h2]
        exact_mod_cast hgoal

/-- `scoreGtB x b c` decides
`cosine_similarity(x, c) < cosine_similarity(x, b)` exactly. -/
theorem scoreGtB_correct (x b c : List Nat) :
    scoreGtB x b c = true ↔
      (if normSqN x = 0 ∨ normSqN c = 0 then (0 : ℝ)
        else (dotN x c : ℝ) / (Real.sqrt (normSqN x) * Real.sqrt (normSqN c)))
      < (if normSqN x = 0 ∨ normSqN b = 0 then (0 : ℝ)
        else (dotN x b : ℝ) / (Real.sqrt (normSqN x) * Real.sqrt (normSqN b))) := by
  by_cases hzb : normSqN x = 0 ∨ normSqN b = 0
  · -- score against b is 0.0; a score is never < 0, so both sides are false
    simp only [scoreGtB, if_pos hzb]
    constructor
    · intro h; exact absurd h (by simp)
    · intro h
      exfalso
      by_cases hzc : normSqN x = 0 ∨ normSqN c = 0
      · rw [if_pos hzc] at h; exact lt_irrefl _ h
      · rw [if_neg hzc] at h
        push_neg at hzc
        have : (0 : ℝ) ≤ (dotN x c : ℝ) / (Real.sqrt (normSqN x) * Real.sqrt (normSqN c)) :=
          div_nonneg (Nat.cast_nonneg _)
            (mul_nonneg (Real.sqrt_nonneg _) (Real.sqrt_nonneg _))
        exact absurd (h.trans_le this) (lt_irrefl _)
  · push_neg at hzb
    have hzb' : ¬ (normSqN x = 0 ∨ normSqN b = 0) := not_or.mpr ⟨hzb.1, hzb.2⟩
    have hnx : (0 : ℝ) < (normSqN x : ℝ) := by exact_mod_cast Nat.pos_of_ne_zero hzb.1
    have hnb : (0 : ℝ) < (normSqN b : ℝ) := by exact_mod_cast Nat.pos_of_ne_zero hzb.2
    have hsb : (0 : ℝ) < Real.sqrt (normSqN x) * Real.sqrt (normSqN b) :=
      mul_pos (Real.sqrt_pos.mpr hnx) (Real.sqrt_pos.mpr hnb)
    by_cases hzc : normSqN x = 0 ∨ normSqN c = 0
    · -- score against c is 0.0: the comparison is `0 < dot(x, b)`
      simp only [scoreGtB, if_neg hzb', if_pos hzc, decide_eq_true_eq]
      rw [lt_div_iff₀ hsb, zero_mul]
      exact_mod_cast Iff.rfl
    · push_neg at hzc
      have hzc' : ¬ (normSqN x = 0 ∨ normSqN c = 0) := not_or.mpr ⟨hzc.1, hzc.2⟩
      have hnc : (0 : ℝ) < (normSqN c : ℝ) := by exact_mod_cast Nat.pos_of_ne_zero hzc.2
      have hsc : (0 : ℝ) < Real.sqrt (normSqN x) * Real.sqrt (normSqN c) :=
        mul_pos (Real.sqrt_pos.mpr hnx) (Real.sqrt_pos.mpr hnc)
      simp only [scoreGtB, if_neg hzb', if_neg hzc', decide_eq_true_eq]
      rw [div_lt_div_iff₀ hsc hsb]
      have hA : (0 : ℝ) ≤ (dotN x c : ℝ) * (Real.sqrt (normSqN x) * Real.sqrt (normSqN b)) :=
        mul_nonneg (Nat.cast_nonneg _) hsb.le
      have hB : (0 : ℝ) ≤ (dotN x b : ℝ) * (Real.sqrt (normSqN x) * Real.sqrt (normSqN c)) :=
        mul_nonneg (Nat.cast_nonneg _) hsc.le
      have hsq : ((dotN x c : ℝ) * (Real.sqrt (normSqN x) * Real.sqrt (normSqN b))) ^ 2
            < ((dotN x b : ℝ) * (Real.sqrt (normSqN x) * Real.sqrt (normSqN c))) ^ 2
          ↔ (dotN x c : ℝ) * (Real.sqrt (normSqN x) * Real.sqrt (normSqN b))
            < (dotN x b : ℝ) * (Real.sqrt (normSqN x) * Real.sqrt (normSqN c)) := by
        constructor
        · intro h
          nlinarith [h, hA, hB]
        · intro h
          nlinarith [h, hA, hB]
      rw [← hsq]
      have hexp : ∀ (d nb' : ℝ), 0 ≤ nb' →
          (d * (Real.sqrt (normSqN x) * Real.sqrt nb')) ^ 2
            = d * d * ((normSqN x : ℝ) * nb') := by
        intro d nb' hnb'
        rw [mul_pow, mul_pow, Real.sq_sqrt hnx.le, Real.sq_sqrt hnb']
        ring
      rw [hexp _ _ hnb.le, hexp _ _ hnc.le]
      have hcast : ((dotN x c : ℝ) * (dotN x c : ℝ) * ((normSqN x : ℝ) * (normSqN b : ℝ))
            < (dotN x b : ℝ) * (dotN x b : ℝ) * ((normSqN x : ℝ) * (normSqN c : ℝ)))
          ↔ (dotN x c * dotN x c * (normSqN x * normSqN b)
              < dotN x b * dotN x b * (normSqN x * normSqN c)) := by
        constructor
        · intro h; exact_mod_cast h
        · intro h; exact_mod_cast h
      rw [hcast]
      have hshuffle : ∀ (d n : ℕ), d * d * (normSqN x * n) = d * d * n * normSqN x := by
        intro d n; ring
      rw [hshuffle (dotN x c) (normSqN b), hshuffle (dotN x b) (normSqN c)]
      rw [Nat.mul_lt_mul_right (Nat.pos_of_ne_zero hzb.1)]

/-! ## Well-formedness of detector output -/

/-- Spans of emitted findings are bounded by the candidate spans' bounds
(regex matches always satisfy `start <= stop <= |text|`). -/
theorem detect_wf {c : Cands} {text : Str}
    (hwf : ∀ s ∈ allSpans c, s.start ≤ s.stop ∧ s.stop ≤ text.length) :
    ∀ f ∈ detect c text, f.start ≤ f.stop ∧ f.stop ≤ text.length := by
  intro f hf
  obtain ⟨s, hs, h1, h2⟩ := rawFindings_spans (detect_subset c text hf)
  rw [h1, h2]
  exact hwf s hs

/-- The overlap-resolved output, with each element's own well-formedness
attached (a transitive strengthening of the sweep invariant). -/
theorem detect_chain_wf {c : Cands} {text : Str}
    (hwf : ∀ s ∈ allSpans c, s.start ≤ s.stop ∧ s.stop ≤ text.length) :
    List.Chain' (fun f g => f.start ≤ f.stop ∧ f.stop ≤ g.start ∧ g.start ≤ g.stop)
      (detect c text) := by
  have hch : List.Chain' (fun f g => f.stop ≤ g.start) (detect c text) :=
    mergeGo_chain _ _
  have hmem := detect_wf hwf
  rw [List.chain'_iff_get] at hch ⊢
  intro i hi
  exact ⟨(hmem _ (List.get_mem _ _ _)).1, hch i hi, (hmem _ (List.get_mem _ _ _)).1⟩

/-- Filtering (the enabled-detector filter of `eval`) preserves
non-overlap. -/
theorem detect_filter_chain {c : Cands} {text : Str} (p : Finding → Bool)
    (hwf : ∀ s ∈ allSpans c, s.start ≤ s.stop ∧ s.stop ≤ text.length) :
    List.Chain' (fun f g => f.stop ≤ g.start) ((detect c text).filter p) := by
  have htrans : Transitive
      (fun f g : Finding => f.start ≤ f.stop ∧ f.stop ≤ g.start ∧ g.start ≤ g.stop) := by
    intro a b d hab hbd
    exact ⟨hab.1, le_trans (le_trans hab.2.1 hbd.1) hbd.2.1, hbd.2.2⟩
  haveI : IsTrans Finding
      (fun f g : Finding => f.start ≤ f.stop ∧ f.stop ≤ g.start ∧ g.start ≤ g.stop) :=
    ⟨fun a b d hab hbd => htrans hab hbd⟩
  have hpair := (List.chain'_iff_pairwise (R := fun f g : Finding =>
      f.start ≤ f.stop ∧ f.stop ≤ g.start ∧ g.start ≤ g.stop)).mp (detect_chain_wf hwf)
  have hpair' := hpair.sublist (List.filter_sublist (p := p) (detect c text))
  exact ((List.chain'_iff_pairwise).mpr hpair').imp (fun _ _ hab => hab.2.1)

/-- A non-overlapping, in-bounds finding list is well formed for redaction
from any position at or before its first span. -/
theorem spansOk_of_chain {text : Str} :
    ∀ (l : List Finding) (pos : Nat),
      (∀ f ∈ l, f.start ≤ f.stop ∧ f.stop ≤ text.length) →
      List.Chain' (fun f g => f.stop ≤ g.start) l →
      (match l.head? with
       | some f => pos ≤ f.start
       | none => pos ≤ text.length) →
      spansOkB text pos l = true := by
  intro l
  induction l with
  | nil =>
      intro pos _ _ hhead
      simpa [spansOkB] using hhead
  | cons f rest ih =>
      intro pos hmem hch hhead
      obtain ⟨hah, hct⟩ := List.chain'_cons'.mp hch
      simp only [spansOkB, Bool.and_eq_true, decide_eq_true_eq]
      refine ⟨⟨hhead, (hmem f (List.mem_cons_self f rest)).1⟩, ?_⟩
      apply ih f.stop (fun g hg => hmem g (List.mem_cons_of_mem _ hg)) hct
      cases hr : rest.head? with
      | some g =>
          simpa using hah g (by rw [hr]; rfl)
      | none =>
          cases rest with
          | nil => simpa using (hmem f (by simp)).2
          | cons g rest' => simp at hr

/-- The finding list `eval` redacts with is always well formed, given
in-bounds candidate spans. -/
theorem spansOk_detect_filter {c : Cands} {text : Str} (p : Finding → Bool)
    (hwf : ∀ s ∈ allSpans c, s.start ≤ s.stop ∧ s.stop ≤ text.length) :
    spansOkB text 0 ((detect c text).filter p) = true := by
  apply spansOk_of_chain _ 0
  · intro f hf
    exact detect_wf hwf f (List.mem_filter.mp hf).1
  · exact detect_filter_chain p hwf
  · cases ((detect c text).filter p).head? <;> simp

/-! ## Zero-input lemmas (short normalised text) -/

/-- With fewer than 3 normalised characters no n-gram of any length in
`[3, 5]` exists. -/
theorem ngramHashes_nil {text : Str} (h : (normalizeText text).length < 3) :
    ngramHashes text 3 5 = [] := by
  have h3 : ngramHashesAt (normalizeText text) 3 = [] := by
    unfold ngramHashesAt; rw [if_pos h]
  have h4 : ngramHashesAt (normalizeText text) 4 = [] := by
    unfold ngramHashesAt; rw [if_pos (by omega)]
  have h5 : ngramHashesAt (normalizeText text) 5 = [] := by
    unfold ngramHashesAt; rw [if_pos (by omega)]
  unfold ngramHashes
  have hr : (List.range (5 + 1 - 3)).map (fun k => k + 3) = [3, 4, 5] := rfl
  rw [hr]
  simp [List.flatMap_cons, List.flatMap_nil, h3, h4, h5]

/-- The eval-time dense vector of a short input is all zeros. -/
theorem denseCounts_zero {text : Str} (h : (normalizeText text).length < 3) :
    denseCounts text 3 5 = List.replicate 128 0 := by
  unfold denseCounts
  rw [ngramHashes_nil h]
  decide

theorem normSqN_replicate_zero : normSqN (List.replicate 128 0) = 0 := by decide

/-! ## Claims -/

/-- C6: for every input text and every set of candidate spans (each
non-empty, as every regex match is), the finding list returned by `detect`
— candidates sorted by `(start ascending, end descending)`, then swept
left-to-right with a running `last_end` dropping candidates whose start is
below it — is non-overlapping and strictly increasing in `start`. -/
theorem c6_detect_nonoverlapping (c : Cands) (text : Str)
    (h : ∀ s ∈ allSpans c, s.start < s.stop) :
    List.Chain' (fun f g => f.stop ≤ g.start) (detect c text)
    ∧ List.Chain' (fun f g => f.start < g.start) (detect c text) := by
  refine ⟨mergeGo_chain _ _, ?_⟩
  have hmem : ∀ f ∈ detect c text, f.start < f.stop := by
    intro f hf
    obtain ⟨s, hs, h1, h2⟩ := rawFindings_spans (detect_subset c text hf)
    rw [h1, h2]
    exact h s hs
  have hch : List.Chain' (fun f g => f.stop ≤ g.start) (detect c text) :=
    mergeGo_chain _ _
  rw [List.chain'_iff_get] at hch ⊢
  intro i hi
  exact lt_of_lt_of_le (hmem _ (List.get_mem _ _ _)) (hch i hi)

/-- C6 witness: the scenario-2 text with its email and IPv4 candidate
spans. -/
theorem c6_witness :
    (∀ s ∈ allSpans c5Cands, s.start < s.stop)
    ∧ (List.Chain' (fun f g => f.stop ≤ g.start) (detect c5Cands c5Text)
       ∧ List.Chain' (fun f g => f.start < g.start) (detect c5Cands c5Text)) :=
  ⟨by decide, c6_detect_nonoverlapping c5Cands c5Text (by decide)⟩

/-- C7: every credit-card finding emitted by `detect` has a digits-only
length between 13 and 19 and passes the Luhn checksum; every IPv4 finding
splits on dots into exactly four octets, each parsing to a numeric value of
at most 255. -/
theorem c7_finding_validators (c : Cands) (text : Str) (f : Finding)
    (hf : f ∈ detect c text) :
    (f.piiType = .creditCard →
      13 ≤ (digitsOf f.text).length ∧ (digitsOf f.text).length ≤ 19
        ∧ luhnValid (digitsOf f.text) = true)
    ∧ (f.piiType = .ip →
      (splitOnDot f.text).length = 4
        ∧ ∀ p ∈ splitOnDot f.text, ∃ n, parseU16 p = some n ∧ n ≤ 255) := by
  have hraw := detect_subset c text hf
  simp only [rawFindings, List.mem_append, List.mem_map, List.mem_filterMap] at hraw
  rcases hraw with ((⟨s, hs, hfe⟩ | ⟨s, hs, hfe⟩) | ⟨s, hs, hfe⟩) | ⟨s, hs, hfe⟩
  · -- email finding: neither implication applies
    have hty : f.piiType = .email := by rw [← hfe]
    constructor <;> (intro h'; rw [hty] at h'; exact absurd h' (by decide))
  · -- IPv4 finding: the candidate survived `is_valid_ipv4`
    split at hfe
    case isTrue hvalid =>
      have hfe' := Option.some.inj hfe
      have htext : f.text = slice text s.start s.stop := by rw [← hfe']
      have hty : f.piiType = .ip := by rw [← hfe']
      refine ⟨fun h' => absurd h' (by rw [hty]; decide), ?_⟩
      intro _
      rw [htext]
      unfold isValidIpv4 at hvalid
      by_cases hlen : (splitOnDot (slice text s.start s.stop)).length ≠ 4
      · rw [if_pos hlen] at hvalid; exact absurd hvalid (by simp)
      · rw [if_neg hlen] at hvalid
        push_neg at hlen
        refine ⟨hlen, ?_⟩
        intro p hp
        have hone := (List.all_eq_true.mp hvalid) p hp
        by_cases hpe : p = []
        · rw [if_pos hpe] at hone; exact absurd hone (by simp)
        · rw [if_neg hpe] at hone
          by_cases hp3 : p.length > 3
          · rw [if_pos hp3] at hone; exact absurd hone (by simp)
          · rw [if_neg hp3] at hone
            cases hparse : parseU16 p with
            | none => rw [hparse] at hone; exact absurd hone (by simp)
            | some n =>
                rw [hparse] at hone
                exact ⟨n, rfl, by simpa using hone⟩
    case isFalse => simp at hfe
  · -- credit-card finding: the candidate survived the Luhn post-filter
    split at hfe
    case isTrue hvalid =>
      have hfe' := Option.some.inj hfe
      have htext : f.text = slice text s.start s.stop := by rw [← hfe']
      have hty : f.piiType = .creditCard := by rw [← hfe']
      simp only [ccKeep, Bool.and_eq_true, decide_eq_true_eq] at hvalid
      refine ⟨fun _ => ?_, fun h' => absurd h' (by rw [hty]; decide)⟩
      rw [htext]
      exact ⟨hvalid.1.1, hvalid.1.2, hvalid.2⟩
    case isFalse => simp at hfe
  · -- phone finding: neither implication applies
    split at hfe
    case isTrue hvalid =>
      have hfe' := Option.some.inj hfe
      have hty : f.piiType = .phone := by rw [← hfe']
      constructor <;> (intro h'; rw [hty] at h'; exact absurd h' (by decide))
    case isFalse => simp at hfe

/-- C7 witness: spec scenario 3, the Luhn-valid card `4111111111111111`. -/
theorem c7_witness :
    c7Finding ∈ detect c7Cands c7Text
    ∧ ((c7Finding.piiType = .creditCard →
          13 ≤ (digitsOf c7Finding.text).length
            ∧ (digitsOf c7Finding.text).length ≤ 19
            ∧ luhnValid (digitsOf c7Finding.text) = true)
       ∧ (c7Finding.piiType = .ip →
          (splitOnDot c7Finding.text).length = 4
            ∧ ∀ p ∈ splitOnDot c7Finding.text, ∃ n, parseU16 p = some n ∧ n ≤ 255)) :=
  ⟨by decide, c7_finding_validators c7Cands c7Text c7Finding (by decide)⟩

/-- C1: with semantic matching enabled for the request kind, action
`block`, and the request text identical to a stored example (so the best
cosine score is `1.0`, at or above the `0.5` threshold — first conjunct),
the `eval` handler nonetheless returns `allow` with no matched rule
(second conjunct): src/api.rs `eval` contains no Stage 1.5 — it never
consults the semantic snapshot or calls `semantic::evaluate`. -/
theorem c1_eval_never_blocks_semantically :
    semEvaluate (compileSemantic c1Semantic) c1Req.kind c1Req.text
        = some ("jb", "jailbreak".data)
    ∧ evalHandler [] PiiConfig.default noCands c1Req
        = .ok { action := .allow, matchedRule := none, reason := none,
                outputText := none, pii := none } := by
  exact ⟨by decide, by decide⟩

/-- C2 counterexample: a policy with two rules both named `"dup"` applies
successfully — `compile_all` performs no id-uniqueness check — and both the
in-memory policy and the persisted document become the duplicate policy. -/
theorem c2_counterexample :
    dupPolicy.rules.map Rule.id = ["dup", "dup"]
    ∧ (applyPolicy noRegex st0 dupPolicy).2 = .ok ()
    ∧ getPolicy (applyPolicy noRegex st0 dupPolicy).1 = dupPolicy
    ∧ (applyPolicy noRegex st0 dupPolicy).1.disk = some dupPolicy
    ∧ getPolicy st0 ≠ getPolicy (applyPolicy noRegex st0 dupPolicy).1 := by
  refine ⟨by decide, by decide, by decide, by decide, by decide⟩

/-- C2 amended: `apply_policy` validates only that every rule compiles —
rule-id uniqueness is not checked.  Whenever compilation succeeds (also for
a policy with duplicate ids), apply succeeds and replaces both the
in-memory state and the on-disk document with the new policy. -/
theorem c2_apply_ok_of_rules_compile (rc : RegexComp) (st : StoreState)
    (p : PolicyFile) (h : (compileAll rc p.rules).isOk = true) :
    (applyPolicy rc st p).2 = .ok ()
    ∧ getPolicy (applyPolicy rc st p).1 = p
    ∧ (applyPolicy rc st p).1.disk = some p := by
  unfold applyPolicy
  cases hc : compileAll rc p.rules with
  | error e => rw [hc] at h; simp [Except.isOk, Except.toBool] at h
  | ok cs => exact ⟨rfl, rfl, rfl⟩

/-- C2 witness: the duplicate-id policy compiles, so the amended theorem
applies to it. -/
theorem c2_witness :
    (compileAll noRegex dupPolicy.rules).isOk = true
    ∧ dupPolicy.rules.map Rule.id = ["dup", "dup"]
    ∧ ((applyPolicy noRegex st0 dupPolicy).2 = .ok ()
       ∧ getPolicy (applyPolicy noRegex st0 dupPolicy).1 = dupPolicy
       ∧ (applyPolicy noRegex st0 dupPolicy).1.disk = some dupPolicy) :=
  ⟨by decide, by decide, c2_apply_ok_of_rules_compile noRegex st0 dupPolicy (by decide)⟩

/-- C3 counterexample: with block rule `"A"` and allow rule `"B"` both at
priority 5 and both matching the prompt `"hack"`, Stage 1 returns rule A's
action `block`, not rule B's `allow`: the tie-break `(priority, id)`
ascending puts `"A"` first and the first match wins. -/
theorem c3_counterexample :
    (compileAll noRegex [c3RuleA "hack".data, c3RuleB "hack".data]).map
        (fun l => evaluateStage1 l (c3Req "hack".data))
      = .ok (.block, some "A", some "matched")
    ∧ Action.block ≠ Action.allow := by
  exact ⟨by decide, by decide⟩

/-- C3 amended: in the two-rule tie scenario (block rule id `"A"`, allow
rule id `"B"`, equal priority, both matching the prompt), the result is
rule A's action `block`: ties are resolved by id ascending, so the rule
with the smaller id is evaluated first and wins. -/
theorem c3_tie_smaller_id_wins (rc : RegexComp) (t : Str) :
    (compileAll rc [c3RuleA t, c3RuleB t]).map (fun l => evaluateStage1 l (c3Req t))
      = .ok (.block, some "A", some "matched") := by
  have h1 : compileAll rc [c3RuleA t, c3RuleB t]
      = .ok [{ id := "A", description := none, appliesTo := .prompt, action := .block,
               priority := 5, whenAny := [.exact .text t] },
             { id := "B", description := none, appliesTo := .prompt, action := .allow,
               priority := 5, whenAny := [.exact .text t] }] := rfl
  rw [h1]
  show Except.ok (evaluateStage1 _ (c3Req t)) = _
  simp only [evaluateStage1, applies, c3Req, matchOne, fieldValue, List.any_cons,
    List.any_nil, beq_self_eq_true, Bool.or_false, if_neg, Bool.true_eq_false,
    if_true]
  simp

/-- C4 counterexample: an 11-byte prompt against `max_bytes = 10` that
matches a block rule is answered with the Stage 1 block decision (HTTP
200), not with 413: the payload guard only runs after Stage 1. -/
theorem c4_counterexample :
    c4Pii.maxBytes < byteLen c4Req.text
    ∧ (compileAll noRegex [c4Rule]).map (fun l => evalHandler l c4Pii noCands c4Req)
      = .ok (.ok { action := .block, matchedRule := some "c4", reason := some "matched",
                   outputText := none, pii := none }) := by
  exact ⟨by decide, by decide⟩

/-- C4 amended: when Stage 1 does not block, a request whose text exceeds
`pii.max_bytes` fails with the payload-too-large (413) outcome, before any
semantic or PII processing; a Stage 1 block, however, short-circuits ahead
of the guard. -/
theorem c4_payload_guard_after_stage1 (compiled : List CompiledRule)
    (piiCfg : PiiConfig) (cands : Cands) (req : EvalRequest)
    (h1 : (evaluateStage1 compiled req).1 ≠ .block)
    (h2 : piiCfg.maxBytes < byteLen req.text) :
    evalHandler compiled piiCfg cands req = .payloadTooLarge := by
  unfold evalHandler
  rw [if_neg h1, if_pos h2]

/-- C4 witness: an empty rule list never blocks; the 11-byte text over the
10-byte cap is rejected with 413. -/
theorem c4_witness :
    (evaluateStage1 [] c4Req).1 ≠ Action.block
    ∧ c4Pii.maxBytes < byteLen c4Req.text
    ∧ evalHandler [] c4Pii noCands c4Req = .payloadTooLarge :=
  ⟨by decide, by decide,
    c4_payload_guard_after_stage1 [] c4Pii noCands c4Req (by decide) (by decide)⟩

/-- C5: for every allowed request (Stage 1 did not block, size within the
cap) on which PII detection runs (enabled, applicable, redact mode) and at
least one finding of an enabled detector type remains, the returned
`output_text` is the input text with each kept span `[start, stop)`
replaced by `redaction_token` and every position outside the kept spans
preserved (the `redactFrom` shape), and its length satisfies
`|out| = |text| + sum (|token| - (stop - start))` over the kept spans.
The candidate spans are in bounds, as every regex match is. -/
theorem c5_redaction_correct (compiled : List CompiledRule) (piiCfg : PiiConfig)
    (cands : Cands) (req : EvalRequest)
    (hwf : ∀ s ∈ allSpans cands, s.start ≤ s.stop ∧ s.stop ≤ req.text.length)
    (hs1 : (evaluateStage1 compiled req).1 ≠ .block)
    (hsize : ¬ piiCfg.maxBytes < byteLen req.text)
    (hen : piiCfg.enabled = true)
    (happ : applies piiCfg.appliesTo req.kind = true)
    (hmode : piiCfg.mode = .redact)
    (hne : ((detect cands req.text).filter
        (fun f => detectorOn piiCfg.detectors f.piiType)).isEmpty = false) :
    outcomeOutputText (evalHandler compiled piiCfg cands req)
      = some (redactFrom req.text piiCfg.redactionToken 0
          ((detect cands req.text).filter (fun f => detectorOn piiCfg.detectors f.piiType)))
    ∧ ((redactFrom req.text piiCfg.redactionToken 0
          ((detect cands req.text).filter
            (fun f => detectorOn piiCfg.detectors f.piiType))).length : ℤ)
      = (req.text.length : ℤ)
        + redactDelta piiCfg.redactionToken
            ((detect cands req.text).filter (fun f => detectorOn piiCfg.detectors f.piiType)) := by
  have hok : spansOkB req.text 0 ((detect cands req.text).filter
      (fun f => detectorOn piiCfg.detectors f.piiType)) = true :=
    spansOk_detect_filter _ hwf
  constructor
  · have heq := applyRedactions_eq req.text piiCfg.redactionToken _ 0 hok
    unfold evalHandler
    rw [if_neg hs1, if_neg hsize, hen, happ, hmode]
    simp only [Bool.true_and, beq_self_eq_true, Bool.and_self, if_true, hne,
      Bool.false_eq_true, if_false, outcomeOutputText]
    rw [heq]
    simp
  · have hlen := redactFrom_length req.text piiCfg.redactionToken _ 0 hok
    simpa using hlen

/-- C5 witness: spec scenario 2 — `"me@x.io from 8.8.8.8"` with email and
ip detectors on redacts to `"REDACTED from REDACTED"`. -/
theorem c5_witness :
    (∀ s ∈ allSpans c5Cands, s.start ≤ s.stop ∧ s.stop ≤ c5Req.text.length)
    ∧ (evaluateStage1 [] c5Req).1 ≠ Action.block
    ∧ ¬ c5Pii.maxBytes < byteLen c5Req.text
    ∧ c5Pii.enabled = true
    ∧ applies c5Pii.appliesTo c5Req.kind = true
    ∧ c5Pii.mode = .redact
    ∧ ((detect c5Cands c5Req.text).filter
        (fun f => detectorOn c5Pii.detectors f.piiType)).isEmpty = false
    ∧ (outcomeOutputText (evalHandler [] c5Pii c5Cands c5Req)
        = some (redactFrom c5Req.text c5Pii.redactionToken 0
            ((detect c5Cands c5Req.text).filter
              (fun f => detectorOn c5Pii.detectors f.piiType)))
      ∧ ((redactFrom c5Req.text c5Pii.redactionToken 0
            ((detect c5Cands c5Req.text).filter
              (fun f => detectorOn c5Pii.detectors f.piiType))).length : ℤ)
        = (c5Req.text.length : ℤ)
          + redactDelta c5Pii.redactionToken
              ((detect c5Cands c5Req.text).filter
                (fun f => detectorOn c5Pii.detectors f.piiType)))
    ∧ redactFrom c5Req.text c5Pii.redactionToken 0
        ((detect c5Cands c5Req.text).filter
          (fun f => detectorOn c5Pii.detectors f.piiType))
      = "REDACTED from REDACTED".data :=
  ⟨by decide, by decide, by decide, by decide, by decide, by decide, by decide,
    c5_redaction_correct [] c5Pii c5Cands c5Req (by decide) (by decide) (by decide)
      (by decide) (by decide) (by decide) (by decide),
    by decide⟩

/-- C8 counterexample: a `keywords` expression with an empty values list
compiles successfully (`AhoCorasick::new` accepts an empty pattern list),
so applying a policy containing it succeeds — compilation does not fail as
the claim states. -/
theorem c8_counterexample :
    kwRule.when.any = [MatchExpr.keywords .text []]
    ∧ (compileRule noRegex kwRule).isOk = true
    ∧ (applyPolicy noRegex st0 kwPolicy).2 = .ok () := by
  exact ⟨by decide, by decide, by decide⟩

/-- C8 amended: compiling a `keywords` match expression with an empty
values list succeeds, producing a matcher that matches no request; only an
invalid `regex` pattern can fail a rule's compilation, so `apply_policy`
does not fail on empty keyword sets. -/
theorem c8_empty_keywords_compile (rc : RegexComp) (r : Rule) (fld : Field)
    (h : r.when.any = [MatchExpr.keywords fld []]) :
    ∃ cr, compileRule rc r = .ok cr
      ∧ cr.whenAny = [CompiledMatch.keywords fld []]
      ∧ ∀ req : EvalRequest, (cr.whenAny.any (fun m => matchOne m req)) = false := by
  refine ⟨{ id := r.id, description := r.description, appliesTo := r.appliesTo,
            action := r.action, priority := r.priority,
            whenAny := [.keywords fld []] }, ?_, rfl, ?_⟩
  · unfold compileRule
    rw [h]
    rfl
  · intro req
    rfl

/-- C8 witness: the empty-keywords rule `kwRule` compiles into a
never-matching rule. -/
theorem c8_witness :
    kwRule.when.any = [MatchExpr.keywords .text []]
    ∧ ∃ cr, compileRule noRegex kwRule = .ok cr
        ∧ cr.whenAny = [CompiledMatch.keywords .text []]
        ∧ ∀ req : EvalRequest, (cr.whenAny.any (fun m => matchOne m req)) = false :=
  ⟨rfl, c8_empty_keywords_compile noRegex kwRule .text rfl⟩

/-- C9 (code bug): `evaluate` vectorizes the eval-time input with the fixed
range `[3, 5]` (src/semantic.rs line 72; `CompiledSemantic` does not retain
the configured range) while stored example vectors use the configured range
— here `[4, 4]`.  Consequently (1) with threshold `1.0` the input `"abcd"`
fails to match its own verbatim example, (2) the eval-time vector differs
from the vector compiled for the same text, although (3) the stored example
vector is exactly the `[4, 4]` one and (4) a comparison of identically
vectorized text reaches the threshold. -/
theorem c9_eval_vector_mismatch :
    semEvaluate (compileSemantic c9Semantic) .prompt "abcd".data = none
    ∧ denseCounts "abcd".data 3 5 ≠ denseCounts "abcd".data 4 4
    ∧ (compileSemantic c9Semantic).cases.map (fun cs => cs.examples.map (fun e => e.ngramVec))
      = [[denseCounts "abcd".data 4 4]]
    ∧ scoreGeB (denseCounts "abcd".data 4 4) (denseCounts "abcd".data 4 4) (mkRat 1 1)
      = true :=
  ⟨by decide, by decide, by decide, by decide⟩

/-- C10: for every compiled semantic policy with a strictly positive
threshold and every input whose normalised form (ASCII-lowercased,
whitespace runs collapsed, trimmed) has fewer than 3 characters — the empty
string included — `evaluate` finds no match: the input's dense vector is
all zeros, hence every cosine similarity is `0.0`, below the threshold. -/
theorem c10_short_input_no_match (c : CompiledSemantic) (kind : Kind) (text : Str)
    (ht : 0 < c.threshold) (hlen : (normalizeText text).length < 3) :
    denseCounts text 3 5 = List.replicate 128 0
    ∧ semEvaluate c kind text = none := by
  have hzero := denseCounts_zero hlen
  refine ⟨hzero, ?_⟩
  unfold semEvaluate
  by_cases he : c.enabled = false
  · rw [if_pos he]
  · rw [if_neg he]
    by_cases ha : applies c.appliesTo kind = false
    · rw [if_pos ha]
    · rw [if_neg ha]
      have hscore : ∀ v : List Nat, scoreGeB (denseCounts text 3 5) v c.threshold = false := by
        intro v
        rw [hzero]
        unfold scoreGeB
        rw [if_pos (Or.inl normSqN_replicate_zero)]
        exact decide_eq_false (by rw [not_le]; exact Rat.num_pos.mpr ht)
      cases hb : bestMatch (denseCounts text 3 5) c.cases with
      | none => simp [hb]
      | some pair =>
          obtain ⟨cid, ex⟩ := pair
          simp [hb, hscore]

/-- C10 witness: the enabled default-threshold config against the
normalised two-character input `"ab"`. -/
theorem c10_witness :
    0 < (compileSemantic c10Semantic).threshold
    ∧ (normalizeText "ab".data).length < 3
    ∧ (denseCounts "ab".data 3 5 = List.replicate 128 0
       ∧ semEvaluate (compileSemantic c10Semantic) .prompt "ab".data = none) :=
  ⟨by decide, by decide,
    c10_short_input_no_match (compileSemantic c10Semantic) .prompt "ab".data
      (by decide) (by decide)⟩

end MK
